import Mathlib

/-!
Verification of the gomire bulk image-resizing tool.

The definitions below are a shallow embedding of the Go source
(`cmd` package plus `internal/utils/stringutils.go`).  Stateful pieces
(the package-level flag variables) are modelled by explicit state
passing through a `Globals` record; process termination via `os.Exit`
and runtime panics are modelled by the `Outcome` type; the filesystem
seen by `filepath.WalkDir` is modelled as an explicit tree of entries.
Opaque collaborators that are not part of this repository
(`filepath.Abs`, `utils.PathExists`, `os.MkdirAll` success) are passed
in as function parameters.
-/

namespace Gomire

/-- Go `strings.Split` with a one-character separator, on character lists.
`Split` never returns an empty list: splitting the empty string yields a
single empty field. -/
def splitCharL (sep : Char) : List Char → List (List Char)
  | [] => [[]]
  | c :: rest =>
    if c = sep then [] :: splitCharL sep rest
    else
      match splitCharL sep rest with
      | [] => [[c]]
      | g :: gs => (c :: g) :: gs

/-- String-level wrapper for `splitCharL`. -/
def splitChar (sep : Char) (s : String) : List String :=
  (splitCharL sep s.data).map fun cs => ⟨cs⟩

/-- Suffix of a character list starting at its last dot, or `[]` when the
list has no dot. -/
def lastDotSuffix : List Char → List Char
  | [] => []
  | c :: rest =>
    match lastDotSuffix rest with
    | [] => if c = '.' then c :: rest else []
    | r => r

/-- Go `filepath.Ext`: the suffix beginning at the final dot in the final
slash-separated element of the path; empty when there is no dot. -/
def goExt (p : String) : String :=
  ⟨lastDotSuffix ((splitCharL '/' p.data).getLastD [])⟩

/-- Go `strings.ToLower` (ASCII behaviour). -/
def goToLower (s : String) : String := ⟨s.data.map Char.toLower⟩

/-- Go `strings.TrimSpace`. -/
def goTrim (s : String) : String :=
  ⟨((s.data.dropWhile Char.isWhitespace).reverse.dropWhile Char.isWhitespace).reverse⟩

/-- Does `sub` occur as a contiguous run inside the second list?  This is
Go `strings.Contains` on character lists. -/
def infixOf (sub : List Char) : List Char → Bool
  | [] => sub.isEmpty
  | c :: rest => sub.isPrefixOf (c :: rest) || infixOf sub rest

/-- Go `strings.Contains s sub`. -/
def goContains (s sub : String) : Bool := infixOf sub.data s.data

/-- Go `strings.Replace s old new 1`: replace the first occurrence of
`old` (an empty `old` matches at the start). -/
def replaceFirst (old new : List Char) : List Char → List Char
  | [] => if old.isEmpty then new else []
  | c :: rest =>
    if old.isPrefixOf (c :: rest) then new ++ (c :: rest).drop old.length
    else c :: replaceFirst old new rest

/-- String-level wrapper for `replaceFirst`. -/
def goReplaceFirst (s old new : String) : String :=
  ⟨replaceFirst old.data new.data s.data⟩

/-- Fuel-indexed helper for `goReplaceAll`; the fuel only bounds the
recursion and one unit is spent per character consumed, so fuel equal to
the input length gives the exact Go semantics. -/
def replaceAllAux (old new : List Char) : Nat → List Char → List Char
  | _, [] => []
  | 0, s => s
  | fuel + 1, c :: rest =>
    if !old.isEmpty && old.isPrefixOf (c :: rest) then
      new ++ replaceAllAux old new fuel ((c :: rest).drop old.length)
    else c :: replaceAllAux old new fuel rest

/-- Go `strings.Replace s old new (-1)`: replace every occurrence. -/
def goReplaceAll (s old new : String) : String :=
  ⟨replaceAllAux old.data new.data s.data.length s.data⟩

/-- Digits of a decimal numeral; `none` when empty or a non-digit occurs. -/
def digitsToNat : List Char → Option Nat
  | [] => none
  | cs =>
    cs.foldl
      (fun acc c =>
        acc.bind fun n => if c.isDigit then some (n * 10 + (c.toNat - 48)) else none)
      (some 0)

/-- Go `strconv.Atoi`: optional sign, decimal digits, 64-bit range check. -/
def goAtoi (s : String) : Option Int :=
  let core : Bool → List Char → Option Int := fun neg cs =>
    (digitsToNat cs).bind fun n =>
      if neg then
        if n ≤ 9223372036854775808 then some (-(n : Int)) else none
      else
        if n ≤ 9223372036854775807 then some (n : Int) else none
  match s.data with
  | '-' :: rest => core true rest
  | '+' :: rest => core false rest
  | cs => core false cs

/-- Result of running a piece of the program: normal value, process
termination through `os.Exit code`, or a Go runtime panic. -/
inductive Outcome (α : Type) where
  | ok : α → Outcome α
  | exit : Nat → Outcome α
  | panicked : Outcome α
deriving DecidableEq

/-- `utils.IsStringEmpty` from `internal/utils/stringutils.go`. -/
def IsStringEmpty (s : String) : Bool := (goTrim s).length == 0

/-- The `FileOperation` plan record. -/
structure FileOperation where
  originPath : String
  targetPath : String
  targetWidth : Int
  targetHeight : Int
deriving DecidableEq

/-- The fixed supported extension set (`supportedImgTypes`, without dots). -/
def supportedImgTypes : List String := ["jpg", "png", "gif", "tif", "bmp"]

/-- `NewFileOperation`: splits the resolution on `"x"` and parses both
components with `strconv.Atoi`; a failed parse prints and calls
`os.Exit(2)`.  Indexing `splits[1]` when the split produced a single
field is a runtime panic in Go (index out of range). -/
def NewFileOperation (o_path t_path res : String) : Outcome FileOperation :=
  let splits := splitChar 'x' res
  match goAtoi (splits.headD "") with
  | none => .exit 2
  | some w =>
    match splits.get? 1 with
    | none => .panicked
    | some s1 =>
      match goAtoi s1 with
      | none => .exit 2
      | some h => .ok ⟨o_path, t_path, w, h⟩

/-- `isSupportedFiletype`: lower-cases the extension and drops its first
byte with `[1:]` before comparing against `supportedImgTypes`.  When the
extension is the empty string, `""[1:]` is a Go runtime panic (slice
bounds out of range). -/
def isSupportedFiletype (s : String) : Outcome Bool :=
  match (goToLower s).data with
  | [] => .panicked
  | _ :: rest => .ok (supportedImgTypes.contains ⟨rest⟩)

/-- Go `filepath.IsAbs` on Unix: the path starts with a slash. -/
def goIsAbs (p : String) : Bool :=
  match p.data with
  | '/' :: _ => true
  | _ => false

/-- The package-level flag variables read and written by the program. -/
structure Globals where
  inputDir : String
  outputDir : String
  recursive : Bool
  fileType : String
  fileTypes : List String
  resolution : String
  verbose : Bool
deriving DecidableEq

/-- `validateFlags`, with the opaque collaborators `filepath.Abs`
(`abs`, closed over the working directory), `utils.PathExists` and
`os.MkdirAll` success (`mkdirOk`) passed as parameters.  The Go line
`inputDir, err := filepath.Abs(inputDir)` uses `:=`, which declares a
fresh local `inputDir` shadowing the package-level variable, so the
global `inputDir` field of the result is left untouched; `outputDir`
uses plain `=` and is updated.  A failed `os.MkdirAll` is only printed
(`fmt.Printf`), returned here as a warning string, and does not exit.
All fatal paths call `os.Exit(2)`. -/
def validateFlags (abs : String → String) (pathExists : String → Bool)
    (mkdirOk : String → Bool) (g : Globals) : Outcome (Globals × List String) :=
  let inputDirL := abs g.inputDir
  if !(pathExists inputDirL) then .exit 2
  else
    let outputDir := abs g.outputDir
    let warnings :=
      if !(pathExists outputDir) && !(mkdirOk outputDir) then
        ["Error creaging output directory " ++ outputDir]
      else []
    if goContains outputDir inputDirL then .exit 2
    else
      let fileType := goReplaceAll (goReplaceAll g.fileType "jpeg" "jpg") "tiff" "tif"
      let fileTypes :=
        (splitChar ',' fileType).map fun v =>
          if IsStringEmpty v then v
          else if v.data.headD '.' ≠ '.' then "." ++ v else v
      let resolution := goTrim (goToLower g.resolution)
      if !(goContains resolution "x") then .exit 2
      else
        .ok ({ g with
                outputDir := outputDir
                fileType := fileType
                fileTypes := fileTypes
                resolution := resolution }, warnings)

/-- An entry of the filesystem tree walked by `filepath.WalkDir`: a plain
file, or a directory with a readability flag (`false` models a directory
whose `ReadDir` fails) and its children in traversal order. -/
inductive FsEntry where
  | file : String → FsEntry
  | dir : String → Bool → List FsEntry → FsEntry

/-- Name of a filesystem entry. -/
def FsEntry.name : FsEntry → String
  | .file n => n
  | .dir n _ _ => n

/-- Literal path concatenation `base ++ "/" ++ n`.  This is what
`filepath.Join` returns when the concatenation is already a clean path;
in general `filepath.Join` additionally cleans — see `goJoin`. -/
def pathJoin (base n : String) : String := ⟨base.data ++ '/' :: n.data⟩

/-- One pass of Go `filepath.Clean`'s element processing: empty and
`.` components are dropped, `..` pops a previous component (or is kept
at the start of a relative path, or dropped at the root of a rooted
path), and other components are kept.  The accumulator holds the kept
components in reverse order. -/
def cleanComponents (rooted : Bool) : List (List Char) → List (List Char) → List (List Char)
  | acc, [] => acc
  | acc, c :: rest =>
    if c = [] ∨ c = ['.'] then cleanComponents rooted acc rest
    else if c = ['.', '.'] then
      match acc with
      | [] =>
        if rooted then cleanComponents rooted [] rest
        else cleanComponents rooted [['.', '.']] rest
      | a :: as =>
        if a = ['.', '.'] then cleanComponents rooted (c :: acc) rest
        else cleanComponents rooted as rest
    else cleanComponents rooted (c :: acc) rest

/-- Go `filepath.Clean` (Unix): lexical simplification of a path.  The
empty path cleans to `.`; a rooted path keeps its leading slash; the
empty relative result is `.`. -/
def goClean (p : String) : String :=
  match p.data with
  | [] => "."
  | c :: rest =>
    let rooted := c = '/'
    let cs := (cleanComponents rooted [] (splitCharL '/' (c :: rest))).reverse
    if rooted then ⟨'/' :: List.intercalate ['/'] cs⟩
    else if cs = [] then "."
    else ⟨List.intercalate ['/'] cs⟩

/-- Go `filepath.Join` of two elements as used by `filepath.WalkDir` to
build each child path: empty elements are dropped, the rest are joined
with a slash, and the result is cleaned. -/
def goJoin (base n : String) : String :=
  match base.data, n.data with
  | [], _ => goClean n
  | _, [] => goClean base
  | _, _ => goClean ⟨base.data ++ '/' :: n.data⟩

/-- The body of the `WalkDir` callback for a non-directory entry at path
`s`: when `isSupportedFiletype(filepath.Ext(s))` holds, the target path
is `strings.Replace(s, inputDir, outputDir, 1)` and a `FileOperation`
is appended.  Note the requested `fileTypes` set is never consulted. -/
def fileVisit (g : Globals) (s : String) : Outcome (List FileOperation × Bool) :=
  match isSupportedFiletype (goExt s) with
  | .panicked => .panicked
  | .exit c => .exit c
  | .ok false => .ok ([], false)
  | .ok true =>
    let t := goReplaceFirst s g.inputDir g.outputDir
    match NewFileOperation s t g.resolution with
    | .ok op => .ok ([op], false)
    | .exit c => .exit c
    | .panicked => .panicked

mutual

/-- Walk of a single non-root entry at the given full path.  A non-root
directory is skipped wholesale (`fs.SkipDir`) when `recursive` is off;
when recursion is on and the directory is unreadable, the callback is
invoked with the read error and returns it, aborting the walk (the
boolean component records the abort). -/
def walkEntry (g : Globals) (path : String) : FsEntry → Outcome (List FileOperation × Bool)
  | .file _ => fileVisit g path
  | .dir _ readable entries =>
    if !g.recursive then .ok ([], false)
    else if !readable then .ok ([], true)
    else walkEntries g path entries

/-- Walk of a list of sibling entries under `base`, in order, stopping
at the first entry whose walk aborted with a traversal error.  Each
child path is built with `filepath.Join` (`goJoin`), as `WalkDir`
does. -/
def walkEntries (g : Globals) (base : String) : List FsEntry → Outcome (List FileOperation × Bool)
  | [] => .ok ([], false)
  | e :: rest =>
    match walkEntry g (goJoin base e.name) e with
    | .panicked => .panicked
    | .exit c => .exit c
    | .ok (fs, true) => .ok (fs, true)
    | .ok (fs, false) =>
      match walkEntries g base rest with
      | .panicked => .panicked
      | .exit c => .exit c
      | .ok (fs2, ab) => .ok (fs ++ fs2, ab)

end

mutual

/-- Does every `filepath.Join` performed while walking this entry's
subtree (whose own full path is `path`) coincide with the literal
concatenation `base ++ "/" ++ name`?  This holds for cleaned roots such
as `/in` and fails for unclean roots such as `.` or `photos/`. -/
def subtreeJoins (path : String) : FsEntry → Bool
  | .file _ => true
  | .dir _ _ entries => childrenJoin path entries

/-- `subtreeJoins` for a list of sibling entries under `base`: each
child's join is literal and its subtree joins literally. -/
def childrenJoin (base : String) : List FsEntry → Bool
  | [] => true
  | e :: rest =>
    (goJoin base e.name == pathJoin base e.name) &&
      subtreeJoins (goJoin base e.name) e && childrenJoin base rest

end

/-- `listFilesToBeCopies`: walks the tree rooted at the global
`inputDir`.  The return value of `filepath.WalkDir` is discarded by the
source, so a traversal abort (including an unreadable root, modelled by
`rootReadable = false`) still yields the files accumulated so far and a
`nil` error: the only non-`ok` outcomes are the `os.Exit(2)` reached
from `NewFileOperation` and the runtime panic of `isSupportedFiletype`
on an empty extension. -/
def listFilesToBeCopies (g : Globals) (rootReadable : Bool) (tree : List FsEntry) :
    Outcome (List FileOperation) :=
  if !rootReadable then .ok []
  else
    match walkEntries g g.inputDir tree with
    | .ok (fs, _aborted) => .ok fs
    | .exit c => .exit c
    | .panicked => .panicked

/-- `cmdMain`: validates flags, enumerates, exits 0 when no files were
found, and otherwise proceeds to `copyFilesWithProgress` on the listed
operations (returned as the `ok` payload).  The `err != nil` branch
after `listFilesToBeCopies` is unreachable because the enumeration
always returns a `nil` error. -/
def cmdMain (abs : String → String) (pathExists mkdirOk : String → Bool)
    (g : Globals) (rootReadable : Bool) (tree : List FsEntry) :
    Outcome (List FileOperation) :=
  match validateFlags abs pathExists mkdirOk g with
  | .exit c => .exit c
  | .panicked => .panicked
  | .ok (g2, _) =>
    match listFilesToBeCopies g2 rootReadable tree with
    | .exit c => .exit c
    | .panicked => .panicked
    | .ok files => if files.isEmpty then .exit 0 else .ok files

/-! The concurrent dispatcher `copyFilesWithProgress` launches one
goroutine per `FileOperation`.  Each failing goroutine executes
`errs = append(errs, msg)` on the shared `errs` slice with no mutex,
which under a sequentially-consistent interleaving is two separate
atomic accesses: a read of the slice followed by a write of the
extended slice.  The deferred `bar.Add(1)` is internally synchronized
by the progress-bar library and is modelled as a single atomic
increment.  A schedule is an explicit interleaving of these atomic
events; task `k`'s own events must occur in the order
`load k, store k, incr k` to correspond to a real execution. -/

/-- Shared state of the dispatcher: the progress counter, the shared
error slice, and each task's private snapshot of the slice taken by its
`append`'s read. -/
structure CopyState where
  counter : Nat
  errs : List String
  snaps : List (Nat × List String)
deriving DecidableEq

/-- One atomic event of some task `k` during the dispatch phase. -/
inductive CopyEv where
  | load : Nat → CopyEv
  | store : Nat → CopyEv
  | incr : Nat → CopyEv
deriving DecidableEq

/-- Latest snapshot recorded for task `k`. -/
def lookupSnap (k : Nat) : List (Nat × List String) → List String
  | [] => []
  | (j, v) :: rest => if j = k then v else lookupSnap k rest

/-- Effect of one atomic event on the shared state; `msg k` is the error
message produced by task `k`'s failing operation. -/
def copyStep (msg : Nat → String) (st : CopyState) : CopyEv → CopyState
  | .load k => { st with snaps := (k, st.errs) :: st.snaps }
  | .store k => { st with errs := lookupSnap k st.snaps ++ [msg k] }
  | .incr _ => { st with counter := st.counter + 1 }

/-- Run a schedule of atomic events from the initial dispatcher state. -/
def runCopySched (msg : Nat → String) (evs : List CopyEv) : CopyState :=
  evs.foldl (copyStep msg) ⟨0, [], []⟩

/-- The task an event belongs to. -/
def evTask : CopyEv → Nat
  | .load k => k
  | .store k => k
  | .incr k => k

/-- Program order of the events of a single failing task `k`: its
`append` reads the shared slice, then writes it, then the deferred
`bar.Add(1)` fires. -/
def taskEvents (k : Nat) : List CopyEv := [.load k, .store k, .incr k]

/-! Concrete scenarios used to settle the claims.  `absId` models
`filepath.Abs` when every supplied path is already absolute; `absCwd`
models it for a working directory `/cwd`. -/

/-- Identity path resolver for already-absolute arguments. -/
def absId : String → String := fun p => p

/-- Path resolver with working directory `/cwd`. -/
def absCwd : String → String := fun p => if goIsAbs p then p else "/cwd/" ++ p

/-- Filesystem oracle on which every path exists. -/
def peAll : String → Bool := fun _ => true

/-- `os.MkdirAll` oracle that always succeeds. -/
def mkAll : String → Bool := fun _ => true

/-- Filesystem oracle on which only `/in` exists. -/
def peOnlyIn : String → Bool := fun p => p == "/in"

/-- `os.MkdirAll` oracle that always fails. -/
def mkNone : String → Bool := fun _ => false

/-- Flags: input `/in`, output `/out`, non-recursive, requested types
`jpg` only, resolution `100x100`. -/
def cfgC1 : Globals := ⟨"/in", "/out", false, "jpg", [], "100x100", false⟩

/-- `cfgC1` after validation: `fileTypes` becomes `[".jpg"]`. -/
def gC1 : Globals := ⟨"/in", "/out", false, "jpg", [".jpg"], "100x100", false⟩

/-- Flags as `cfgC1` but recursive with the default type list. -/
def cfgC3 : Globals := ⟨"/in", "/out", true, "png,jpg", [], "100x100", false⟩

/-- `cfgC3` after validation. -/
def gC3 : Globals := ⟨"/in", "/out", true, "png,jpg", [".png", ".jpg"], "100x100", false⟩

/-- Flags with the zero-width resolution string `0x1080`. -/
def cfgC4 : Globals := ⟨"/in", "/out", false, "png,jpg", [], "0x1080", false⟩

/-- `cfgC4` after validation. -/
def gC4 : Globals := ⟨"/in", "/out", false, "png,jpg", [".png", ".jpg"], "0x1080", false⟩

/-- Flags with the separator-less resolution string `abc`. -/
def cfgAbc : Globals := ⟨"/in", "/out", false, "png,jpg", [], "abc", false⟩

/-- Flags whose input directory is the relative path `photos`. -/
def cfgC5 : Globals := ⟨"photos", "/out", false, "png,jpg", [], "100x100", false⟩

/-- `cfgC5` after validation: the input directory is still relative. -/
def gC5 : Globals := ⟨"photos", "/out", false, "png,jpg", [".png", ".jpg"], "100x100", false⟩

/-- Flags for an absent output directory `/out` (only `/in` exists). -/
def cfgC6 : Globals := ⟨"/in", "/out", false, "png,jpg", [], "100x100", false⟩

/-- `cfgC6` after validation. -/
def gC6 : Globals := ⟨"/in", "/out", false, "png,jpg", [".png", ".jpg"], "100x100", false⟩

/-- Flags with the output directory `/a/b` nested in the input `/a`. -/
def cfgC8 : Globals := ⟨"/a", "/a/b", false, "png,jpg", [], "100x100", false⟩

/-- Flags whose input directory is the unclean relative path `.`. -/
def cfgDot : Globals := ⟨".", "/out", false, "png,jpg", [], "100x100", false⟩

/-- `cfgDot` after validation: the walk root is still the raw `.`. -/
def gDot : Globals := ⟨".", "/out", false, "png,jpg", [".png", ".jpg"], "100x100", false⟩

/-- Error messages of the two failing dispatcher tasks. -/
def msgC2 : Nat → String := fun k => if k = 0 then "e0" else "e1"

/-- An interleaving of two failing tasks in which both read the shared
error slice before either writes it back. -/
def schedC2 : List CopyEv := [.load 0, .load 1, .store 0, .store 1, .incr 0, .incr 1]

/-! Helper lemmas. -/

theorem isPrefixOf_append_self (l r : List Char) : l.isPrefixOf (l ++ r) = true := by
  induction l with
  | nil => simp [List.isPrefixOf]
  | cons c cs ih => simp [List.isPrefixOf, ih]

theorem infixOf_of_isPrefixOf (sub s : List Char) (h : sub.isPrefixOf s = true) :
    infixOf sub s = true := by
  cases s with
  | nil =>
    cases sub with
    | nil => rfl
    | cons c cs => simp [List.isPrefixOf] at h
  | cons c rest =>
    simp only [infixOf, Bool.or_eq_true]
    exact Or.inl h

theorem replaceFirst_append (old new r : List Char) :
    replaceFirst old new (old ++ r) = new ++ r := by
  cases old with
  | nil =>
    cases r with
    | nil => simp [replaceFirst]
    | cons c rest => simp [replaceFirst, List.isPrefixOf]
  | cons o os =>
    have h1 : (o :: os).isPrefixOf ((o :: os) ++ r) = true := isPrefixOf_append_self _ _
    simp [replaceFirst, h1]

/-- A successfully constructed `FileOperation` carries exactly the
origin and target paths it was given, and dimensions obtained by
`strconv.Atoi` from the two fields around the `"x"` separator. -/
theorem NewFileOperation_ok (o t res : String) (op : FileOperation)
    (h : NewFileOperation o t res = .ok op) :
    op.originPath = o ∧ op.targetPath = t ∧
    goAtoi ((splitChar 'x' res).headD "") = some op.targetWidth ∧
    ∃ s1, (splitChar 'x' res).get? 1 = some s1 ∧ goAtoi s1 = some op.targetHeight := by
  unfold NewFileOperation at h
  dsimp only at h
  cases hw : goAtoi ((splitChar 'x' res).headD "") with
  | none => rw [hw] at h; exact Outcome.noConfusion h
  | some w =>
    rw [hw] at h
    cases hs : (splitChar 'x' res).get? 1 with
    | none => rw [hs] at h; exact Outcome.noConfusion h
    | some s1 =>
      rw [hs] at h
      dsimp only at h
      cases hh : goAtoi s1 with
      | none => rw [hh] at h; exact Outcome.noConfusion h
      | some hv =>
        rw [hh] at h
        cases Outcome.ok.inj h
        exact ⟨rfl, rfl, rfl, s1, rfl, hh⟩

/-- Every operation emitted by the walk callback for a file at path `s`
has origin `s` and target `strings.Replace(s, inputDir, outputDir, 1)`. -/
theorem fileVisit_ok (g : Globals) (s : String) (fs : List FileOperation) (ab : Bool)
    (h : fileVisit g s = .ok (fs, ab)) :
    ∀ op ∈ fs, op.originPath = s ∧
      op.targetPath = goReplaceFirst s g.inputDir g.outputDir := by
  unfold fileVisit at h
  cases hi : isSupportedFiletype (goExt s) with
  | panicked => rw [hi] at h; exact Outcome.noConfusion h
  | exit c => rw [hi] at h; exact Outcome.noConfusion h
  | ok b =>
    rw [hi] at h
    cases b with
    | false =>
      dsimp only at h
      obtain ⟨rfl, rfl⟩ := Prod.mk.inj (Outcome.ok.inj h)
      intro op hop
      simp at hop
    | true =>
      dsimp only at h
      cases hn : NewFileOperation s (goReplaceFirst s g.inputDir g.outputDir) g.resolution with
      | exit c => rw [hn] at h; exact Outcome.noConfusion h
      | panicked => rw [hn] at h; exact Outcome.noConfusion h
      | ok op0 =>
        rw [hn] at h
        dsimp only at h
        obtain ⟨rfl, rfl⟩ := Prod.mk.inj (Outcome.ok.inj h)
        intro op hop
        rw [List.mem_singleton] at hop
        subst hop
        have hno := NewFileOperation_ok _ _ _ _ hn
        exact ⟨hno.1, hno.2.1⟩

mutual

theorem walkEntry_paths (g : Globals) (path : String) (ent : FsEntry)
    (fs : List FileOperation) (ab : Bool)
    (h : walkEntry g path ent = .ok (fs, ab))
    (hp : ∃ r0, path.data = g.inputDir.data ++ r0)
    (hj : subtreeJoins path ent = true) :
    ∀ op ∈ fs, ∃ r, op.originPath.data = g.inputDir.data ++ r ∧
      op.targetPath.data = g.outputDir.data ++ r := by
  cases ent with
  | file n =>
    intro op hop
    obtain ⟨r0, hr0⟩ := hp
    have hf := fileVisit_ok g path fs ab h op hop
    refine ⟨r0, ?_, ?_⟩
    · rw [hf.1, hr0]
    · rw [hf.2]
      show replaceFirst g.inputDir.data g.outputDir.data path.data = _
      rw [hr0, replaceFirst_append]
  | dir n readable entries =>
    unfold walkEntry at h
    cases hrec : g.recursive with
    | false =>
      rw [hrec] at h
      simp only [Bool.not_false, if_pos] at h
      obtain ⟨rfl, rfl⟩ := Prod.mk.inj (Outcome.ok.inj h)
      intro op hop
      simp at hop
    | true =>
      rw [hrec] at h
      cases hread : readable with
      | false =>
        rw [hread] at h
        simp only [Bool.not_true, Bool.not_false, if_pos, if_neg] at h
        obtain ⟨rfl, rfl⟩ := Prod.mk.inj (Outcome.ok.inj h)
        intro op hop
        simp at hop
      | true =>
        rw [hread] at h
        simp only [Bool.not_true, if_neg] at h
        exact walkEntries_paths g path entries fs ab h hp hj

theorem walkEntries_paths (g : Globals) (base : String) (ents : List FsEntry)
    (fs : List FileOperation) (ab : Bool)
    (h : walkEntries g base ents = .ok (fs, ab))
    (hp : ∃ r0, base.data = g.inputDir.data ++ r0)
    (hj : childrenJoin base ents = true) :
    ∀ op ∈ fs, ∃ r, op.originPath.data = g.inputDir.data ++ r ∧
      op.targetPath.data = g.outputDir.data ++ r := by
  cases ents with
  | nil =>
    unfold walkEntries at h
    obtain ⟨rfl, rfl⟩ := Prod.mk.inj (Outcome.ok.inj h)
    intro op hop
    simp at hop
  | cons e rest =>
    rw [childrenJoin] at hj
    simp only [Bool.and_eq_true, beq_iff_eq] at hj
    obtain ⟨⟨hje, hjs⟩, hjr⟩ := hj
    have hpc : ∃ r0, (goJoin base e.name).data = g.inputDir.data ++ r0 := by
      obtain ⟨r0, hr0⟩ := hp
      refine ⟨r0 ++ '/' :: e.name.data, ?_⟩
      rw [hje]
      show base.data ++ '/' :: e.name.data = _
      rw [hr0, List.append_assoc]
    unfold walkEntries at h
    cases he : walkEntry g (goJoin base e.name) e with
    | panicked => rw [he] at h; exact Outcome.noConfusion h
    | exit c => rw [he] at h; exact Outcome.noConfusion h
    | ok p =>
      rw [he] at h
      obtain ⟨fs1, ab1⟩ := p
      cases ab1 with
      | true =>
        dsimp only at h
        obtain ⟨rfl, rfl⟩ := Prod.mk.inj (Outcome.ok.inj h)
        exact walkEntry_paths g (goJoin base e.name) e fs1 true he hpc hjs
      | false =>
        dsimp only at h
        cases hr : walkEntries g base rest with
        | panicked => rw [hr] at h; exact Outcome.noConfusion h
        | exit c => rw [hr] at h; exact Outcome.noConfusion h
        | ok q =>
          rw [hr] at h
          obtain ⟨fs2, ab2⟩ := q
          dsimp only at h
          obtain ⟨rfl, rfl⟩ := Prod.mk.inj (Outcome.ok.inj h)
          intro op hop
          rcases List.mem_append.mp hop with h1 | h2
          · exact walkEntry_paths g (goJoin base e.name) e fs1 false he hpc hjs op h1
          · exact walkEntries_paths g base rest fs2 ab2 hr hp hjr op h2

end

/-! Claim theorems. -/

/-- Claim C1 (refuted; code bug): the claim says a file is included iff
its extension is in both the requested set and the fixed supported set.
With requested types `jpg` only (so `fileTypes = [".jpg"]` after
validation), enumeration still includes `a.png`: the filter consults
only the fixed supported set and never reads `fileTypes`. -/
theorem claim1_requested_types_ignored :
    validateFlags absId peAll mkAll cfgC1 = .ok (gC1, []) ∧
    gC1.fileTypes = [".jpg"] ∧
    listFilesToBeCopies gC1 true [.file "a.png"] =
      .ok [⟨"/in/a.png", "/out/a.png", 100, 100⟩] ∧
    ".png" ∉ gC1.fileTypes := by decide

/-- Claim C2 (refuted; code bug): in a valid interleaving of two failing
tasks — each task's events in its program order, as the filter
conjuncts certify — the progress counter reaches N = 2, but the
unsynchronized `errs = append(errs, msg)` loses a write: the aggregator
ends with one message instead of K = 2. -/
theorem claim2_racy_append_loses_message :
    schedC2.filter (fun e => evTask e == 0) = taskEvents 0 ∧
    schedC2.filter (fun e => evTask e == 1) = taskEvents 1 ∧
    (runCopySched msgC2 schedC2).counter = 2 ∧
    (runCopySched msgC2 schedC2).errs = ["e1"] ∧
    (runCopySched msgC2 schedC2).errs.length = 1 := by decide

/-- Claim C3 (refuted; code bug): with an unreadable subdirectory in the
tree, the walk aborts early but `listFilesToBeCopies` discards the
`WalkDir` error and returns the partial list with a `nil` error, so
`cmdMain` proceeds to per-item work instead of exiting with code 2. -/
theorem claim3_traversal_error_swallowed :
    validateFlags absId peAll mkAll cfgC3 = .ok (gC3, []) ∧
    listFilesToBeCopies gC3 true [.file "a.jpg", .dir "sub" false [], .file "b.jpg"] =
      .ok [⟨"/in/a.jpg", "/out/a.jpg", 100, 100⟩] ∧
    cmdMain absId peAll mkAll cfgC3 true [.file "a.jpg", .dir "sub" false [], .file "b.jpg"] =
      .ok [⟨"/in/a.jpg", "/out/a.jpg", 100, 100⟩] := by decide

/-- Claim C4 counterexample: the resolution string `0x1080`, whose width
component is below 1, is accepted — validation succeeds and the
operation is constructed with width 0 — contradicting the claim that a
component below 1 is a fatal configuration error. -/
theorem claim4_zero_component_accepted :
    validateFlags absId peAll mkAll cfgC4 = .ok (gC4, []) ∧
    NewFileOperation "a" "b" "0x1080" = .ok ⟨"a", "b", 0, 1080⟩ ∧
    (0 : Int) < 1 := by decide

/-- Claim C4 (amended): `1920x1080` parses to width 1920 and height
1080; a resolution whose lower-cased, trimmed form has no `x` separator
is a fatal error with exit code 2; a component that does not parse as
an integer — whether the one before or the one after the separator —
is a fatal error with exit code 2, never a recorded per-file error;
every successfully constructed operation has both components parsed as
integers by `strconv.Atoi` from the fields around the separator.  No
lower bound of 1 is enforced on the components. -/
theorem claim4_resolution_parsing_amended :
    (∀ o t, NewFileOperation o t "1920x1080" = .ok ⟨o, t, 1920, 1080⟩) ∧
    (∀ (abs : String → String) (pe mk : String → Bool) (g : Globals),
      goContains (goTrim (goToLower g.resolution)) "x" = false →
      validateFlags abs pe mk g = .exit 2) ∧
    (∀ o t res, goAtoi ((splitChar 'x' res).headD "") = none →
      NewFileOperation o t res = .exit 2) ∧
    (∀ o t res s1, (splitChar 'x' res).get? 1 = some s1 → goAtoi s1 = none →
      NewFileOperation o t res = .exit 2) ∧
    (∀ o t res op, NewFileOperation o t res = .ok op →
      goAtoi ((splitChar 'x' res).headD "") = some op.targetWidth ∧
      ∃ s1, (splitChar 'x' res).get? 1 = some s1 ∧ goAtoi s1 = some op.targetHeight) := by
  refine ⟨fun o t => rfl, ?_, ?_, ?_,
    fun o t res op h => (NewFileOperation_ok o t res op h).2.2⟩
  · intro abs pe mk g hx
    unfold validateFlags
    cases hpe : pe (abs g.inputDir) with
    | false => simp [hpe]
    | true =>
      cases hc : goContains (abs g.outputDir) (abs g.inputDir) with
      | true => simp [hpe, hc]
      | false => simp [hpe, hc, hx]
  · intro o t res h0
    unfold NewFileOperation
    dsimp only
    rw [h0]
  · intro o t res s1 hs h1
    unfold NewFileOperation
    dsimp only
    cases hw : goAtoi ((splitChar 'x' res).headD "") with
    | none => rfl
    | some w =>
      rw [hs]
      dsimp only
      rw [h1]

/-- Witness for the amended claim C4 at concrete inputs: a good
resolution, a separator-less one, a non-integer width, a non-integer
height, and the component characterization of a parsed resolution. -/
theorem claim4_resolution_parsing_amended_witness :
    NewFileOperation "a" "b" "1920x1080" = .ok ⟨"a", "b", 1920, 1080⟩ ∧
    validateFlags absId peAll mkAll cfgAbc = .exit 2 ∧
    NewFileOperation "a" "b" "ax1" = .exit 2 ∧
    NewFileOperation "a" "b" "1xq" = .exit 2 ∧
    (goAtoi ((splitChar 'x' "1x2").headD "") = some ((1 : Int)) ∧
      ∃ s1, (splitChar 'x' "1x2").get? 1 = some s1 ∧ goAtoi s1 = some ((2 : Int))) :=
  ⟨claim4_resolution_parsing_amended.1 "a" "b",
   claim4_resolution_parsing_amended.2.1 absId peAll mkAll cfgAbc (by decide),
   claim4_resolution_parsing_amended.2.2.1 "a" "b" "ax1" (by decide),
   claim4_resolution_parsing_amended.2.2.2.1 "a" "b" "1xq" "q" (by decide) (by decide),
   claim4_resolution_parsing_amended.2.2.2.2 "p" "q" "1x2" ⟨"p", "q", 1, 2⟩ (by decide)⟩

/-- Claim C5 (refuted; code bug): for the relative input directory
`photos`, validation leaves the global input directory relative (the
`:=` in `validateFlags` binds a shadowing local), and the enumerated
`FileOperation` carries a relative origin path — not an absolute one as
the claim requires. -/
theorem claim5_input_dir_left_relative :
    validateFlags absCwd peAll mkAll cfgC5 = .ok (gC5, []) ∧
    gC5.inputDir = "photos" ∧
    goIsAbs gC5.inputDir = false ∧
    listFilesToBeCopies gC5 true [.file "a.jpg"] =
      .ok [⟨"photos/a.jpg", "/out/a.jpg", 100, 100⟩] ∧
    goIsAbs "photos/a.jpg" = false := by decide

/-- Claim C6 (refuted; code bug): when the absent output directory
cannot be created, `validateFlags` only records the printed error
message and returns successfully, and the run proceeds to enumeration
and per-item work instead of terminating with a non-zero exit code. -/
theorem claim6_mkdir_failure_not_fatal :
    validateFlags absId peOnlyIn mkNone cfgC6 =
      .ok (gC6, ["Error creaging output directory /out"]) ∧
    cmdMain absId peOnlyIn mkNone cfgC6 true [.file "a.jpg"] =
      .ok [⟨"/in/a.jpg", "/out/a.jpg", 100, 100⟩] := by decide

/-- Claim C7 counterexample: with the unclean walk root `.` (reachable
because the raw `-i` flag is used as the walk root), `filepath.Join`
cleans the walked path to `a.jpg`, of which the root `.` is not a
prefix, and `strings.Replace` then replaces the dot of the filename:
the target is the mangled `a/outjpg`, so the destination is not the
source with the root prefix replaced and the filename is not
preserved. -/
theorem claim7_unclean_root_counterexample :
    validateFlags absCwd peAll mkAll cfgDot = .ok (gDot, []) ∧
    listFilesToBeCopies gDot true [.file "a.jpg"] =
      .ok [⟨"a.jpg", "a/outjpg", 100, 100⟩] ∧
    ¬ (gDot.inputDir.data <+:
        (FileOperation.mk "a.jpg" "a/outjpg" 100 100).originPath.data) ∧
    ¬ ∃ r : List Char,
        (FileOperation.mk "a.jpg" "a/outjpg" 100 100).originPath.data =
          gDot.inputDir.data ++ r ∧
        (FileOperation.mk "a.jpg" "a/outjpg" 100 100).targetPath.data =
          gDot.outputDir.data ++ r := by
  refine ⟨by decide, by decide, by decide, ?_⟩
  rintro ⟨r, h1, _⟩
  exact absurd ⟨r, h1.symm⟩ (by decide :
    ¬ (gDot.inputDir.data <+:
        (FileOperation.mk "a.jpg" "a/outjpg" 100 100).originPath.data))

/-- Claim C7 (amended): provided every `filepath.Join` performed during
the walk coincides with literal concatenation (`childrenJoin`, which
holds for cleaned roots such as the absolute `/in` and fails for
unclean roots such as `.`), every operation produced by enumeration has
an origin path that extends the input root by some suffix `r`, and a
target path that is exactly the output root followed by the same
suffix `r` — the first occurrence of the input-root prefix is replaced
by the output root and the relative subpath and filename are preserved
exactly. -/
theorem claim7_target_path_replaces_root (g : Globals) (rr : Bool) (tree : List FsEntry)
    (fs : List FileOperation) (h : listFilesToBeCopies g rr tree = .ok fs)
    (hj : childrenJoin g.inputDir tree = true) :
    ∀ op ∈ fs, ∃ r : List Char, op.originPath.data = g.inputDir.data ++ r ∧
      op.targetPath.data = g.outputDir.data ++ r := by
  unfold listFilesToBeCopies at h
  cases hrr : rr with
  | false =>
    rw [hrr] at h
    simp only [Bool.not_false, if_pos] at h
    cases Outcome.ok.inj h
    intro op hop
    simp at hop
  | true =>
    rw [hrr] at h
    simp only [Bool.not_true, if_neg] at h
    cases hw : walkEntries g g.inputDir tree with
    | panicked => rw [hw] at h; exact Outcome.noConfusion h
    | exit c => rw [hw] at h; exact Outcome.noConfusion h
    | ok p =>
      rw [hw] at h
      obtain ⟨fs0, ab⟩ := p
      dsimp only at h
      obtain rfl := Outcome.ok.inj h
      exact walkEntries_paths g g.inputDir tree _ ab hw ⟨[], (List.append_nil _).symm⟩ hj

/-- Witness for the amended claim C7 on a concrete enumeration. -/
theorem claim7_target_path_replaces_root_witness :
    ∃ r : List Char,
      (FileOperation.mk "/in/a.png" "/out/a.png" 100 100).originPath.data =
        gC1.inputDir.data ++ r ∧
      (FileOperation.mk "/in/a.png" "/out/a.png" 100 100).targetPath.data =
        gC1.outputDir.data ++ r :=
  claim7_target_path_replaces_root gC1 true [.file "a.png"]
    [⟨"/in/a.png", "/out/a.png", 100, 100⟩] (by decide) (by decide)
    ⟨"/in/a.png", "/out/a.png", 100, 100⟩ (by simp)

/-- Claim C8: if the resolved output directory equals the resolved input
directory or is nested beneath it, `validateFlags` terminates the
process with exit code 2, and so does `cmdMain` on any filesystem —
before any enumeration occurs. -/
theorem claim8_nested_output_rejected (abs : String → String) (pe mk : String → Bool)
    (g : Globals)
    (h : abs g.outputDir = abs g.inputDir ∨
      ((abs g.inputDir).data ++ ['/']) <+: (abs g.outputDir).data) :
    validateFlags abs pe mk g = .exit 2 ∧
    ∀ rr tree, cmdMain abs pe mk g rr tree = .exit 2 := by
  have hsub : ∃ tl, (abs g.outputDir).data = (abs g.inputDir).data ++ tl := by
    rcases h with h | h
    · exact ⟨[], by rw [h, List.append_nil]⟩
    · obtain ⟨tl, htl⟩ := h
      exact ⟨'/' :: tl, by rw [← htl, List.append_assoc]; rfl⟩
  have hcon : goContains (abs g.outputDir) (abs g.inputDir) = true := by
    obtain ⟨tl, htl⟩ := hsub
    unfold goContains
    rw [htl]
    exact infixOf_of_isPrefixOf _ _ (isPrefixOf_append_self _ _)
  have hv : validateFlags abs pe mk g = .exit 2 := by
    unfold validateFlags
    cases hpe : pe (abs g.inputDir) with
    | false => simp [hpe]
    | true => simp [hpe, hcon]
  exact ⟨hv, fun rr tree => by simp [cmdMain, hv]⟩

/-- Witness for claim C8 with input `/a` and output `/a/b`. -/
theorem claim8_nested_output_rejected_witness :
    validateFlags absId peAll mkAll cfgC8 = .exit 2 ∧
    cmdMain absId peAll mkAll cfgC8 true [] = .exit 2 :=
  ⟨(claim8_nested_output_rejected absId peAll mkAll cfgC8 (Or.inr (by decide))).1,
   (claim8_nested_output_rejected absId peAll mkAll cfgC8 (Or.inr (by decide))).2 true []⟩

/-- Claim C9: when validation succeeds and enumeration yields no files,
`cmdMain` exits with code 0 without dispatching any resize work. -/
theorem claim9_zero_files_exit_zero (abs : String → String) (pe mk : String → Bool)
    (g g2 : Globals) (ws : List String) (rr : Bool) (tree : List FsEntry)
    (hv : validateFlags abs pe mk g = .ok (g2, ws))
    (he : listFilesToBeCopies g2 rr tree = .ok []) :
    cmdMain abs pe mk g rr tree = .exit 0 := by
  simp [cmdMain, hv, he]

/-- Witness for claim C9 on an empty tree. -/
theorem claim9_zero_files_exit_zero_witness :
    cmdMain absId peAll mkAll cfgC1 true [] = .exit 0 :=
  claim9_zero_files_exit_zero absId peAll mkAll cfgC1 gC1 [] true [] (by decide) (by decide)

/-- Claim C10 (refuted; code bug): the extension check is not total.  A
file named `README` has the empty extension, on which the lower-cased
`[1:]` slice is a runtime panic, so enumeration of a tree containing
such a file panics instead of excluding it. -/
theorem claim10_ext_check_panics :
    goExt "/in/README" = "" ∧
    isSupportedFiletype "" = .panicked ∧
    listFilesToBeCopies gC1 true [.file "README"] = .panicked := by decide

end Gomire
